import Mathlib

/-!
Shallow embedding of the arXiv batch downloader (downloader.py, main.py,
metadata_collector.py, arxiv_client.py, config_manager.py) and proofs about
its normalization, retry, ledger and scheduling behaviour.
-/

/-- Python `str.split(sep)` for a single-character separator (worker of
`pySplit`); `acc` holds the characters of the current piece, reversed. -/
def pySplitAux (sep : Char) : List Char → List Char → List String
  | [], acc => [String.mk acc.reverse]
  | c :: cs, acc =>
    if c = sep then String.mk acc.reverse :: pySplitAux sep cs []
    else pySplitAux sep cs (c :: acc)

/-- Python `str.split(sep)` for a single-character separator. -/
def pySplit (sep : Char) (s : String) : List String :=
  pySplitAux sep s.toList []

/-- Python `str.lower()` (ASCII, as the source applies it to extensions). -/
def pyLower (s : String) : String :=
  String.mk (s.toList.map Char.toLower)

/-- Python `os.path.basename`: the part of the path after the last slash. -/
def pyBasename (s : String) : String :=
  (pySplit '/' s).getLastD ""

/-- Extension as computed by the source: last component of a `'.'`-split of the
name, lowercased (`filename.split(".")[-1].lower()`). -/
def extOf (filename : String) : String :=
  pyLower ((pySplit '.' filename).getLastD "")

/-- Python `str.count` for a single-character needle. -/
def countChar (s : String) (c : Char) : Nat :=
  (s.toList.filter (fun d => d = c)).length

/-- Replace the first occurrence of a character in a character list. -/
def replaceFirstChar : List Char → Char → Char → List Char
  | [], _, _ => []
  | d :: ds, old, new => if d = old then new :: ds else d :: replaceFirstChar ds old new

/-- Python `str.replace(old, new, 1)` for single characters. -/
def replaceFirst (s : String) (old new : Char) : String :=
  String.mk (replaceFirstChar s.toList old new)

/-- Filename normalization step of the single-stream branch
(downloader.py lines 109-113): if the base name contains a dot, split it on
dots; when the first piece contains no dash and (vacuously) contains a dot,
replace the first dot of the whole name by a dash.  The second conjunct tests
`parts[0].count('.') > 0` on a piece produced by splitting on dots, so it can
never hold. -/
def normalize_filename (filename_base : String) : String :=
  if filename_base.toList.contains '.' then
    let parts := pySplit '.' filename_base
    let p0 := parts.headD ""
    if (pySplit '-' p0).length = 1 ∧ countChar p0 '.' > 0 then
      replaceFirst filename_base '.' '-'
    else filename_base
  else filename_base

/-- One member of a tar archive, with the fields the source consumes
(`member.name`, `member.isfile()`, `member.size`). -/
structure TarMember where
  name : String
  isfile : Bool
  size : Nat
deriving DecidableEq, Repr

/-- Result of `download_and_extract_tex_bib`: the returned triple
`(success, size_before, size_after)` plus the relative names of the files the
call wrote under the save directory. -/
structure ExtractResult where
  success : Bool
  sizeBefore : Nat
  sizeAfter : Nat
  written : List String
deriving DecidableEq, Repr

/-- The downloaded blob, already classified by which decoding attempts apply
to it.  `tarball` is a blob `tarfile.open(.., "r:gz")` accepts; `gzipSingle`
is a valid gzip stream that is not a tarball, carrying the original filename
stored in its compressed-stream FNAME header field (which the source never
actually reads) together with its decompressed payload bytes, which are all
the source consumes; `notGzip` is a blob both decoders reject, with the flag
telling whether the HTTP content type mentioned pdf; `fetchFailed` stands for
the HTTP fetch itself raising. -/
inductive Blob where
  | tarball (members : List TarMember)
  | gzipSingle (headerName : Option String) (content : List Nat)
  | notGzip (contentTypePdf : Bool)
  | fetchFailed
deriving DecidableEq, Repr

/-- Header parse of downloader.py lines 80-97.  The source opens the blob
with `gzip.open`, so every `read` yields decompressed payload bytes; the
magic comparison, the flags byte and the NUL-terminated name are therefore
taken from the decompressed `content`, not from the compressed header.
`none` models the raised `ValueError`/`struct.error`; `some nameOpt` is a
completed parse with the recovered name, if the name flag bit was set. -/
def gzip_header_name (content : List Nat) : Option (Option String) :=
  if content.take 2 ≠ [31, 139] then none
  else
    match content.get? 3 with
    | none => none
    | some flags =>
      if flags &&& 8 ≠ 0 then
        let fname := (content.drop 10).takeWhile (fun b => b ≠ 0)
        some (some (String.mk (fname.map (fun b => Char.ofNat b))))
      else some none

/-- Name given to the single decompressed file (downloader.py lines
104-113): the recovered name when present and non-empty, else a synthesized
one, then base name and normalization. -/
def gzip_filename (nameOpt : Option String) (arxiv_id : String) (version : Nat) : String :=
  let filename0 := nameOpt.getD ""
  let filename :=
    if filename0 = "" then arxiv_id ++ "v" ++ toString version ++ ".tex" else filename0
  normalize_filename (pyBasename filename)

/-- Single-stream branch of `download_and_extract_tex_bib`
(downloader.py lines 77-134), operating on the decompressed payload. -/
def gzip_extract (content : List Nat) (arxiv_id : String) (version : Nat)
    (keep_exts : List String) : ExtractResult :=
  match gzip_header_name content with
  | none => ⟨false, 0, 0, []⟩
  | some nameOpt =>
    let size_before := content.length
    let filename_base := gzip_filename nameOpt arxiv_id version
    let ext := extOf filename_base
    if keep_exts.contains ext then
      ⟨true, size_before, content.length, [filename_base]⟩
    else ⟨false, 0, 0, []⟩

/-- Tarball branch of `download_and_extract_tex_bib`
(downloader.py lines 51-73): sum the sizes of all regular-file members, then
write out those whose lowercased final extension is in `keep_exts`. -/
def tar_extract (members : List TarMember) (keep_exts : List String) : ExtractResult :=
  let files := members.filter (fun m => m.isfile)
  let size_before := (files.map (fun m => m.size)).sum
  let kept := files.filter (fun m => keep_exts.contains (extOf (pyBasename m.name)))
  let size_after := (kept.map (fun m => m.size)).sum
  ⟨true, size_before, size_after, kept.map (fun m => m.name)⟩

/-- The Archive Normalizer, `download_and_extract_tex_bib`
(downloader.py lines 16-143), over an already-fetched blob. -/
def download_and_extract_tex_bib (blob : Blob) (arxiv_id : String) (version : Nat)
    (keep_exts : List String) : ExtractResult :=
  match blob with
  | .fetchFailed => ⟨false, 0, 0, []⟩
  | .tarball members => tar_extract members keep_exts
  | .gzipSingle _ content => gzip_extract content arxiv_id version keep_exts
  | .notGzip _ => ⟨false, 0, 0, []⟩

theorem sum_map_filter_le {α : Type} (f : α → Nat) (q : α → Bool) :
    ∀ l : List α, ((l.filter q).map f).sum ≤ (l.map f).sum := by
  intro l
  induction l with
  | nil => simp
  | cons a l ih =>
    by_cases h : q a
    · simp [List.filter_cons, h]
      omega
    · simp [List.filter_cons, h]
      omega

/-- C1: the claim states that a single-stream gzip blob whose embedded
original filename is 1706.03762v7.tex, with keepExtensions tex and bib,
normalizes successfully into exactly one file named 1706-03762v7.tex.
The code instead parses the gzip header out of the decompressed payload, so a
genuine single-file gzip (payload not starting with the gzip magic bytes) is
rejected outright with (False, 0, 0) and no file; and even on a payload that
does start with the magic bytes and carries that name, the dot-replacement
guard never fires and the file is written as 1706.03762v7.tex, dot intact. -/
theorem c1_single_stream_normalization_bug :
    download_and_extract_tex_bib
        (.gzipSingle (some "1706.03762v7.tex") [92, 100, 111, 99])
        "1706.03762" 7 ["tex", "bib"] = ⟨false, 0, 0, []⟩
    ∧ download_and_extract_tex_bib
        (.gzipSingle (some "1706.03762v7.tex")
          ([31, 139, 8, 8, 0, 0, 0, 0, 0, 0] ++
            [49, 55, 48, 54, 46, 48, 51, 55, 54, 50, 118, 55, 46, 116, 101, 120] ++
            [0, 92, 100]))
        "1706.03762" 7 ["tex", "bib"]
      = ⟨true, 29, 29, ["1706.03762v7.tex"]⟩ := by
  exact ⟨by decide, by decide⟩

/-- C2: for every input blob and keep-extension set, the pair returned by
download_and_extract_tex_bib satisfies sizeAfter ≤ sizeBefore, on success as
well as on every failure path. -/
theorem c2_size_after_le_size_before (blob : Blob) (arxiv_id : String)
    (version : Nat) (keep_exts : List String) :
    (download_and_extract_tex_bib blob arxiv_id version keep_exts).sizeAfter ≤
      (download_and_extract_tex_bib blob arxiv_id version keep_exts).sizeBefore := by
  cases blob with
  | tarball members =>
    simp only [download_and_extract_tex_bib, tar_extract]
    exact sum_map_filter_le _ _ _
  | gzipSingle hn content =>
    simp only [download_and_extract_tex_bib, gzip_extract]
    cases h : gzip_header_name content with
    | none => simp [h]
    | some nameOpt =>
      simp only [h]
      split <;> simp
  | notGzip b => simp [download_and_extract_tex_bib]
  | fetchFailed => simp [download_and_extract_tex_bib]

/-- C8: for a tar.gz archive with regular files a.tex, b.bib, c.png and
keepExtensions tex and bib, normalization writes exactly a.tex and b.bib,
sizeBefore is the sum of all three member sizes and sizeAfter the sum of the
two kept member sizes. -/
theorem c8_tarball_selective_extraction (sa sb sc : Nat) (arxiv_id : String)
    (version : Nat) :
    download_and_extract_tex_bib
        (.tarball [⟨"a.tex", true, sa⟩, ⟨"b.bib", true, sb⟩, ⟨"c.png", true, sc⟩])
        arxiv_id version ["tex", "bib"]
      = ⟨true, sa + sb + sc, sa + sb, ["a.tex", "b.bib"]⟩ := by
  rw [Nat.add_assoc]
  rfl

/-- Value stored for one reference in the references dictionary
(metadata_collector.py lines 72-77). -/
structure RefMeta where
  paper_title : String
  authors : List String
  submission_date : Option String
  semantic_scholar_id : Option String
deriving DecidableEq, Repr

/-- One raw reference entry of the Semantic Scholar response, with the fields
the source reads; an author entry is `some name` when the author dict has a
name key. -/
structure SSRawRef where
  arxivExternalId : Option String
  title : String
  authors : List (Option String)
  publicationDate : Option String
  paperId : Option String
deriving DecidableEq, Repr

/-- The parsed JSON body of a successful Semantic Scholar response, with the
fields the source reads; `publicationVenueName` is the name field of the
publicationVenue dict when that value is a dict and has one. -/
structure SSData where
  publicationVenueName : Option String
  venue : Option String
  journalName : Option String
  references : List SSRawRef
deriving DecidableEq, Repr

/-- Python `str.strip()`. -/
def pyStrip (s : String) : String :=
  String.mk (((s.toList.dropWhile Char.isWhitespace).reverse.dropWhile
    Char.isWhitespace).reverse)

/-- `format_arxiv_id` from arxiv_client.py: replace every dot by a dash; the
same substitution builds reference keys in metadata_collector.py line 71. -/
def format_arxiv_id (s : String) : String :=
  String.mk (s.toList.map (fun c => if c = '.' then '-' else c))

/-- Python dict assignment on an association list: overwrite the binding if
the key exists, else append it. -/
def dictInsert (l : List (String × RefMeta)) (k : String) (v : RefMeta) :
    List (String × RefMeta) :=
  if l.any (fun p => p.1 = k) then l.map (fun p => if p.1 = k then (k, v) else p)
  else l ++ [(k, v)]

/-- Venue precedence of metadata_collector.py lines 54-63: the
publicationVenue name, else the venue field, else the journal name. -/
def extractVenue (d : SSData) : String :=
  let pv := d.publicationVenueName.getD ""
  let pv := if pv = "" then d.venue.getD "" else pv
  if pv = "" then d.journalName.getD "" else pv

/-- Reference extraction of metadata_collector.py lines 66-77: keep entries
with a non-empty ArXiv external id, keyed by the dash form of that id. -/
def extractRefs : List SSRawRef → List (String × RefMeta) → List (String × RefMeta)
  | [], acc => acc
  | r :: rs, acc =>
    match r.arxivExternalId with
    | none => extractRefs rs acc
    | some refId =>
      if refId = "" then extractRefs rs acc
      else
        extractRefs rs (dictInsert acc (format_arxiv_id refId)
          ⟨pyStrip r.title, r.authors.filterMap id, r.publicationDate, r.paperId⟩)

/-- Outcome of one request of the retry loop: a 429 status, any other raised
error (bad status or transport failure), or a parsed body. -/
inductive ApiResponse where
  | status429
  | httpError
  | ok (data : SSData)

/-- Retry loop of get_semantic_scholar_data (metadata_collector.py lines
36-87): argument order is the current attempt index, then the remaining
attempts.  A 429 retries; a success returns the parsed venue and references;
any other error retries unless the budget is spent.  The second component of
the result counts the requests issued. -/
def ss_attempts (responses : Nat → ApiResponse) :
    Nat → Nat → (String × List (String × RefMeta)) × Nat
  | attempt, 0 => (("", []), attempt)
  | attempt, remaining + 1 =>
    match responses attempt with
    | .status429 => ss_attempts responses (attempt + 1) remaining
    | .httpError =>
      if remaining = 0 then (("", []), attempt + 1)
      else ss_attempts responses (attempt + 1) remaining
    | .ok d => ((extractVenue d, extractRefs d.references []), attempt + 1)

/-- `get_semantic_scholar_data` over the sequence of responses the secondary
API would give to the successive requests: the returned pair together with
the number of requests issued before returning (max_attempt is 10). -/
def get_semantic_scholar_data (responses : Nat → ApiResponse) :
    (String × List (String × RefMeta)) × Nat :=
  ss_attempts responses 0 10

theorem ss_attempts_of_429 (responses : Nat → ApiResponse)
    (h : ∀ n, responses n = ApiResponse.status429) :
    ∀ remaining attempt,
      ss_attempts responses attempt remaining = (("", []), attempt + remaining) := by
  intro remaining
  induction remaining with
  | zero => intro attempt; simp [ss_attempts]
  | succ k ih =>
    intro attempt
    simp only [ss_attempts, h attempt, ih, Prod.mk.injEq, true_and]
    omega

/-- C5: if every request to the secondary metadata API gets a 429 response,
get_semantic_scholar_data returns after exactly the configured budget of 10
requests, with the empty venue and the empty reference map, and raises no
exception (the embedding returns normally). -/
theorem c5_always_429_exhausts_budget (responses : Nat → ApiResponse)
    (h : ∀ n, responses n = ApiResponse.status429) :
    get_semantic_scholar_data responses = (("", []), 10) := by
  simpa [get_semantic_scholar_data] using ss_attempts_of_429 responses h 10 0

/-- Witness for C5 at the concrete all-429 response sequence. -/
theorem c5_always_429_exhausts_budget_witness :
    get_semantic_scholar_data (fun _ => ApiResponse.status429) = (("", []), 10) :=
  c5_always_429_exhausts_budget (fun _ => ApiResponse.status429) (fun _ => rfl)

/-- The metrics dictionary accumulated by download_paper
(downloader.py lines 164-170). -/
structure PaperMetrics where
  size_before : Nat
  size_after : Nat
  num_references : Nat
  num_versions : Nat
  reference_fetch_success : Bool
deriving DecidableEq, Repr

/-- Outcome of the metadata-and-references build step as download_paper
consumes it: either the call raised, or it returned a dict carrying a
references map and an all_references_count value. -/
inductive MetaBuild where
  | raised
  | built (references : List (String × RefMeta)) (all_references_count : Nat)
deriving Repr

/-- Modelled from the spec: `build_metadata_and_refs` is called by
downloader.py line 213 but is absent from the sources (only its optimized
sibling `build_metadata_and_refs_optimized` is present).  Per sections 4.3
and 6 of the design, it merges the client result into the persisted metadata
record: the reference map keyed by dash-normalized identifier and, under
all_references_count, the upstream total reference count, which is zero when
the retry budget was exhausted. -/
def build_metadata_and_refs (_venue : String)
    (references : List (String × RefMeta)) (all_references_count : Nat) : MetaBuild :=
  MetaBuild.built references all_references_count

/-- `download_paper` (downloader.py lines 146-247) for one identifier, over
the version count reported by discovery (`none` models get_arxiv_metadata
raising), the per-version blobs, and the metadata-build outcome.  Returns
the (success, metrics) pair of the collect_metrics=True call. -/
def download_paper (latest_version : Option Nat) (blobs : Nat → Blob)
    (arxiv_id : String) (keep_exts : List String) (metadata : MetaBuild) :
    Bool × PaperMetrics :=
  match latest_version with
  | none => (false, ⟨0, 0, 0, 0, false⟩)
  | some lv =>
    if lv = 0 then (false, ⟨0, 0, 0, 0, false⟩)
    else
      let results := (List.range' 1 lv).map
        (fun v => download_and_extract_tex_bib (blobs v) arxiv_id v keep_exts)
      let succeeded := results.filter (fun r => r.success)
      let total_before := (succeeded.map (fun r => r.sizeBefore)).sum
      let total_after := (succeeded.map (fun r => r.sizeAfter)).sum
      let m : PaperMetrics := ⟨total_before, total_after, 0, lv, false⟩
      match metadata with
      | .raised => (false, m)
      | .built refs cnt =>
        (true, { m with num_references := refs.length,
                        reference_fetch_success := decide (0 < cnt) })

/-- C10: whenever version discovery reports a positive version count and the
metadata build returns without raising, download_paper reports item-level
success even if every per-version extraction failed, with both accumulated
sizes equal to zero. -/
theorem c10_item_success_without_any_extraction (lv : Nat) (h1 : 1 ≤ lv)
    (blobs : Nat → Blob) (arxiv_id : String) (keep_exts : List String)
    (refs : List (String × RefMeta)) (cnt : Nat)
    (hfail : ∀ v, (download_and_extract_tex_bib (blobs v) arxiv_id v keep_exts).success = false) :
    download_paper (some lv) blobs arxiv_id keep_exts (.built refs cnt)
      = (true, ⟨0, 0, refs.length, lv, decide (0 < cnt)⟩) := by
  have hlv : ¬ lv = 0 := by omega
  have hres : ((List.range' 1 lv).map
      (fun v => download_and_extract_tex_bib (blobs v) arxiv_id v keep_exts)).filter
        (fun r => r.success) = [] := by
    refine List.filter_eq_nil_iff.2 ?_
    intro r hr
    rcases List.mem_map.1 hr with ⟨v, hv, rfl⟩
    simp [hfail v]
  simp [download_paper, hlv, hres]

/-- Witness for C10: one version, fetch failing, empty reference result. -/
theorem c10_item_success_without_any_extraction_witness :
    download_paper (some 1) (fun _ => Blob.fetchFailed) "2412.05271" ["tex", "bib"]
        (.built [] 0)
      = (true, ⟨0, 0, 0, 1, false⟩) :=
  c10_item_success_without_any_extraction 1 (by decide)
    (fun _ => Blob.fetchFailed) "2412.05271" ["tex", "bib"] [] 0 (fun _ => rfl)

/-- C6: when the reference fetch exhausts its retry budget (modelled by the
all-429 client outcome feeding the spec-modelled build_metadata_and_refs with
an upstream total of zero), the recorded metrics carry an empty reference map
and reference_fetch_success = false, while the item-level success flag is
true given that at least one version extracted successfully. -/
theorem c6_exhausted_reference_fetch_metrics (lv : Nat) (h1 : 1 ≤ lv)
    (blobs : Nat → Blob) (arxiv_id : String) (keep_exts : List String)
    (hok : ∃ v, 1 ≤ v ∧ v ≤ lv ∧
      (download_and_extract_tex_bib (blobs v) arxiv_id v keep_exts).success = true) :
    (download_paper (some lv) blobs arxiv_id keep_exts
        (build_metadata_and_refs
          (get_semantic_scholar_data (fun _ => ApiResponse.status429)).1.1
          (get_semantic_scholar_data (fun _ => ApiResponse.status429)).1.2 0)).1 = true
    ∧ (download_paper (some lv) blobs arxiv_id keep_exts
        (build_metadata_and_refs
          (get_semantic_scholar_data (fun _ => ApiResponse.status429)).1.1
          (get_semantic_scholar_data (fun _ => ApiResponse.status429)).1.2 0)).2.num_references = 0
    ∧ (download_paper (some lv) blobs arxiv_id keep_exts
        (build_metadata_and_refs
          (get_semantic_scholar_data (fun _ => ApiResponse.status429)).1.1
          (get_semantic_scholar_data (fun _ => ApiResponse.status429)).1.2 0)).2.reference_fetch_success = false := by
  have hlv : ¬ lv = 0 := by omega
  have hc : get_semantic_scholar_data (fun _ => ApiResponse.status429) = (("", []), 10) := rfl
  rw [hc]
  simp [download_paper, build_metadata_and_refs, hlv]

/-- Witness for C6: one version held in a tarball with a kept file. -/
theorem c6_exhausted_reference_fetch_metrics_witness :
    (download_paper (some 1) (fun _ => Blob.tarball [⟨"main.tex", true, 4⟩])
        "2412.05271" ["tex", "bib"]
        (build_metadata_and_refs
          (get_semantic_scholar_data (fun _ => ApiResponse.status429)).1.1
          (get_semantic_scholar_data (fun _ => ApiResponse.status429)).1.2 0)).1 = true
    ∧ (download_paper (some 1) (fun _ => Blob.tarball [⟨"main.tex", true, 4⟩])
        "2412.05271" ["tex", "bib"]
        (build_metadata_and_refs
          (get_semantic_scholar_data (fun _ => ApiResponse.status429)).1.1
          (get_semantic_scholar_data (fun _ => ApiResponse.status429)).1.2 0)).2.num_references = 0
    ∧ (download_paper (some 1) (fun _ => Blob.tarball [⟨"main.tex", true, 4⟩])
        "2412.05271" ["tex", "bib"]
        (build_metadata_and_refs
          (get_semantic_scholar_data (fun _ => ApiResponse.status429)).1.1
          (get_semantic_scholar_data (fun _ => ApiResponse.status429)).1.2 0)).2.reference_fetch_success = false :=
  c6_exhausted_reference_fetch_metrics 1 (by decide)
    (fun _ => Blob.tarball [⟨"main.tex", true, 4⟩]) "2412.05271" ["tex", "bib"]
    ⟨1, by decide, by decide, by decide⟩

/-- C7: in the single-stream path, when the header parse completes but the
final extension of the resulting name is not among the kept extensions, the
Normalizer returns the zero-yield triple (False, 0, 0) with no file written,
and the caller download_paper still reports the item as processed (the
version is merely skipped; the item is not aborted). -/
theorem c7_nonkept_extension_is_soft_skip (hdr nameOpt : Option String)
    (content : List Nat) (arxiv_id : String) (version : Nat)
    (keep_exts : List String)
    (hparse : gzip_header_name content = some nameOpt)
    (hext : keep_exts.contains (extOf (gzip_filename nameOpt arxiv_id version)) = false)
    (lv : Nat) (hlv : 1 ≤ lv) (blobs : Nat → Blob) (v : Nat)
    (_hv : blobs v = Blob.gzipSingle hdr content)
    (refs : List (String × RefMeta)) (cnt : Nat) :
    download_and_extract_tex_bib (Blob.gzipSingle hdr content) arxiv_id version keep_exts
        = ⟨false, 0, 0, []⟩
    ∧ (download_paper (some lv) blobs arxiv_id keep_exts (.built refs cnt)).1 = true := by
  have hz : ¬ lv = 0 := by omega
  have hm : extOf (gzip_filename nameOpt arxiv_id version) ∉ keep_exts := by
    simpa using hext
  constructor
  · simp [download_and_extract_tex_bib, gzip_extract, hparse, hm]
  · simp [download_paper, hz]

/-- Witness for C7: a payload whose parsed name is x.png against keep
extensions tex and bib. -/
theorem c7_nonkept_extension_is_soft_skip_witness :
    download_and_extract_tex_bib
        (Blob.gzipSingle none
          ([31, 139, 8, 8, 0, 0, 0, 0, 0, 0] ++ [120, 46, 112, 110, 103] ++ [0, 1, 2]))
        "2412.05271" 1 ["tex", "bib"]
        = ⟨false, 0, 0, []⟩
    ∧ (download_paper (some 1)
        (fun _ => Blob.gzipSingle none
          ([31, 139, 8, 8, 0, 0, 0, 0, 0, 0] ++ [120, 46, 112, 110, 103] ++ [0, 1, 2]))
        "2412.05271" ["tex", "bib"] (.built [] 0)).1 = true :=
  c7_nonkept_extension_is_soft_skip none (some "x.png")
    ([31, 139, 8, 8, 0, 0, 0, 0, 0, 0] ++ [120, 46, 112, 110, 103] ++ [0, 1, 2])
    "2412.05271" 1 ["tex", "bib"] (by decide) (by decide) 1 (by decide)
    (fun _ => Blob.gzipSingle none
      ([31, 139, 8, 8, 0, 0, 0, 0, 0, 0] ++ [120, 46, 112, 110, 103] ++ [0, 1, 2]))
    1 rfl [] 0

/-- Zero-padded decimal rendering, Python f-string 05d formatting
(main.py line 115). -/
def pad5 (i : Nat) : String :=
  let s := toString i
  String.mk (List.replicate (5 - s.length) '0') ++ s

/-- Dotted identifier of offset i in the configured range
(main.py line 115). -/
def rangeId (pfx : String) (i : Nat) : String :=
  pfx ++ "." ++ pad5 i

/-- Dash-normalized ledger key of offset i. -/
def safeId (pfx : String) (i : Nat) : String :=
  format_arxiv_id (rangeId pfx i)

/-- The progress section of the persisted config: cursor, completed set and
failed set (config_manager.py lines 36-43). -/
structure Progress where
  current : Nat
  completed : List String
  failed : List String
deriving DecidableEq, Repr

/-- Append-if-absent, the way both download_paper and process_paper mark an
identifier completed or failed. -/
def appendIfAbsent (l : List String) (x : String) : List String :=
  if x ∈ l then l else l ++ [x]

/-- Recording of one item outcome under the config lock (main.py lines
56-62; the identical marks inside downloader.py lines 228-243 are idempotent
duplicates of these). -/
def record_result (p : Progress) (sid : String) (ok : Bool) : Progress :=
  if ok then { p with completed := appendIfAbsent p.completed sid }
  else { p with failed := appendIfAbsent p.failed sid }

/-- Outcome recording followed by the max-so-far cursor update for offset i
(main.py lines 56-62 and 146-148). -/
def applyFinished (pfx : String) (p : Progress) (f : Nat × Bool) : Progress :=
  let q := record_result p (safeId pfx f.1) f.2
  { q with current := max q.current f.1 }

/-- State reached after the listed futures completed, in completion order. -/
def applyRun (pfx : String) (p : Progress) (finished : List (Nat × Bool)) : Progress :=
  finished.foldl (applyFinished pfx) p

/-- Work list of one run (main.py lines 110-123): the offsets from the
cursor to the end of the range whose dash identifier is not yet completed. -/
def workList (pfx : String) (p : Progress) (endIdx : Nat) : List Nat :=
  (List.range' p.current (endIdx + 1 - p.current)).filter
    (fun i => !(p.completed.contains (safeId pfx i)))

/-- One (possibly interrupted) run: the offsets whose processing started, in
dispatch order, and the futures that completed, in completion order. -/
structure RunTrace where
  started : List Nat
  finished : List (Nat × Bool)
deriving DecidableEq, Repr

/-- A trace the orchestrator can produce from state p: the thread pool
serves submissions first-in first-out, so the started offsets form an
initial segment of the work list, and only a started item can finish. -/
def validTrace (pfx : String) (endIdx : Nat) (p : Progress) (t : RunTrace) : Prop :=
  (∃ k, t.started = (workList pfx p endIdx).take k)
  ∧ ∀ x ∈ t.finished, x.1 ∈ t.started

/-- The in-flight items of an interrupted run: started but not finished. -/
def inFlight (t : RunTrace) : List Nat :=
  t.started.filter (fun i => !((t.finished.map (fun x => x.1)).contains i))

/-- Executing a sequence of interrupted runs, restarting from the persisted
state each time. -/
def execTraces (pfx : String) : Progress → List RunTrace → Progress
  | p, [] => p
  | p, t :: ts => execTraces pfx (applyRun pfx p t.finished) ts

/-- Validity of a whole interrupted-run sequence. -/
def validTraces (pfx : String) (endIdx : Nat) : Progress → List RunTrace → Prop
  | _, [] => True
  | p, t :: ts =>
    validTrace pfx endIdx p t ∧ validTraces pfx endIdx (applyRun pfx p t.finished) ts

/-- All offsets whose processing ever started across a run sequence. -/
def attempted : List RunTrace → List Nat
  | [] => []
  | t :: ts => t.started ++ attempted ts

theorem record_result_completed_sub (p : Progress) (sid : String) (ok : Bool)
    (s : String) (h : s ∈ p.completed) : s ∈ (record_result p sid ok).completed := by
  cases ok with
  | false => simpa [record_result] using h
  | true =>
    simp only [record_result, appendIfAbsent]
    by_cases hmem : sid ∈ p.completed <;> simp [hmem, h]

theorem applyFinished_completed_sub (pfx : String) (p : Progress) (f : Nat × Bool)
    (s : String) (h : s ∈ p.completed) : s ∈ (applyFinished pfx p f).completed := by
  simpa [applyFinished] using record_result_completed_sub p (safeId pfx f.1) f.2 s h

theorem applyFinished_current_le (pfx : String) (p : Progress) (f : Nat × Bool) :
    p.current ≤ (applyFinished pfx p f).current := by
  cases f with
  | mk i ok => cases ok <;> simp [applyFinished, record_result, Nat.le_max_left]

theorem applyRun_completed_sub (pfx : String) :
    ∀ (fs : List (Nat × Bool)) (p : Progress) (s : String),
      s ∈ p.completed → s ∈ (applyRun pfx p fs).completed := by
  intro fs
  induction fs with
  | nil => intro p s h; simpa [applyRun] using h
  | cons f fs ih =>
    intro p s h
    simpa [applyRun] using ih (applyFinished pfx p f) s (applyFinished_completed_sub pfx p f s h)

theorem applyRun_current_le (pfx : String) :
    ∀ (fs : List (Nat × Bool)) (p : Progress), p.current ≤ (applyRun pfx p fs).current := by
  intro fs
  induction fs with
  | nil => intro p; simp [applyRun]
  | cons f fs ih =>
    intro p
    have h1 := applyFinished_current_le pfx p f
    have h2 := ih (applyFinished pfx p f)
    simp only [applyRun, List.foldl_cons] at h2 ⊢
    omega

theorem execTraces_completed_sub (pfx : String) :
    ∀ (ts : List RunTrace) (p : Progress) (s : String),
      s ∈ p.completed → s ∈ (execTraces pfx p ts).completed := by
  intro ts
  induction ts with
  | nil => intro p s h; simpa [execTraces] using h
  | cons t ts ih =>
    intro p s h
    exact ih _ s (applyRun_completed_sub pfx t.finished p s h)

theorem execTraces_current_le (pfx : String) :
    ∀ (ts : List RunTrace) (p : Progress), p.current ≤ (execTraces pfx p ts).current := by
  intro ts
  induction ts with
  | nil => intro p; simp [execTraces]
  | cons t ts ih =>
    intro p
    have h1 := applyRun_current_le pfx t.finished p
    have h2 := ih (applyRun pfx p t.finished)
    simp only [execTraces]
    omega

theorem mem_workList_facts (pfx : String) (p : Progress) (endIdx i : Nat)
    (h : i ∈ workList pfx p endIdx) :
    p.current ≤ i ∧ i ≤ endIdx ∧ safeId pfx i ∉ p.completed := by
  have h1 := List.mem_filter.1 h
  have h2 := List.mem_range'_1.1 h1.1
  refine ⟨h2.1, by omega, ?_⟩
  simpa using h1.2

theorem mem_workList_intro (pfx : String) (p : Progress) (endIdx i : Nat)
    (h1 : p.current ≤ i) (h2 : i ≤ endIdx) (h3 : safeId pfx i ∉ p.completed) :
    i ∈ workList pfx p endIdx := by
  refine List.mem_filter.2 ⟨List.mem_range'_1.2 ⟨h1, by omega⟩, by simpa using h3⟩

theorem workList_pairwise (pfx : String) (p : Progress) (endIdx : Nat) :
    (workList pfx p endIdx).Pairwise (fun a b => a < b) :=
  (List.pairwise_lt_range' _ _).filter _

theorem mem_take_of_mem_of_lt {l : List Nat} (hs : l.Pairwise (fun a b => a < b))
    {k i j : Nat} (hi : i ∈ l) (hj : j ∈ l.take k) (hij : i < j) : i ∈ l.take k := by
  have hs2 : (l.take k ++ l.drop k).Pairwise (fun a b => a < b) := by
    rw [List.take_append_drop]; exact hs
  have hi2 : i ∈ l.take k ++ l.drop k := by
    rw [List.take_append_drop]; exact hi
  rcases List.mem_append.1 hi2 with h | h
  · exact h
  · exfalso
    have := (List.pairwise_append.1 hs2).2.2 j hj i h
    omega

/-- The resume invariant: every offset of the configured range strictly below
the cursor is either completed in the ledger or has been attempted. -/
def LedgerInv (pfx : String) (start0 : Nat) (p : Progress) (A : List Nat) : Prop :=
  ∀ i, start0 ≤ i → i < p.current → safeId pfx i ∈ p.completed ∨ i ∈ A

theorem foldl_applyFinished_inv (pfx : String) (endIdx start0 : Nat) (p : Progress)
    (st : List Nat) (k : Nat) (hst : st = (workList pfx p endIdx).take k) (A : List Nat) :
    ∀ (fs : List (Nat × Bool)) (q : Progress),
      (∀ x ∈ fs, x.1 ∈ st) →
      p.current ≤ q.current →
      (∀ s ∈ p.completed, s ∈ q.completed) →
      LedgerInv pfx start0 q (A ++ st) →
      LedgerInv pfx start0 (fs.foldl (applyFinished pfx) q) (A ++ st) := by
  intro fs
  induction fs with
  | nil => intro q _ _ _ hinv; simpa using hinv
  | cons f fs ih =>
    intro q hmem hcur hsub hinv
    rw [List.foldl_cons]
    apply ih
    · intro x hx; exact hmem x (List.mem_cons_of_mem f hx)
    · exact le_trans hcur (applyFinished_current_le pfx q f)
    · intro s hs; exact applyFinished_completed_sub pfx q f s (hsub s hs)
    · intro j hj0 hjlt
      have hcur_eq : (applyFinished pfx q f).current = max q.current f.1 := by
        cases f with
        | mk i ok => cases ok <;> simp [applyFinished, record_result]
      rw [hcur_eq] at hjlt
      by_cases hjq : j < q.current
      · rcases hinv j hj0 hjq with h | h
        · exact Or.inl (applyFinished_completed_sub pfx q f _ h)
        · exact Or.inr h
      · have hjf : j < f.1 := by omega
        have hf_st : f.1 ∈ st := hmem f (List.mem_cons_self f fs)
        have hf_W : f.1 ∈ workList pfx p endIdx := by
          rw [hst] at hf_st; exact List.mem_of_mem_take hf_st
        obtain ⟨hw1, hw2, hw3⟩ := mem_workList_facts pfx p endIdx f.1 hf_W
        by_cases hjc : safeId pfx j ∈ p.completed
        · exact Or.inl (applyFinished_completed_sub pfx q f _ (hsub _ hjc))
        · have hjW : j ∈ workList pfx p endIdx :=
            mem_workList_intro pfx p endIdx j (by omega) (by omega) hjc
          have hjtake : j ∈ (workList pfx p endIdx).take k := by
            refine mem_take_of_mem_of_lt (workList_pairwise pfx p endIdx) hjW ?_ hjf
            rw [← hst]; exact hf_st
          exact Or.inr (List.mem_append.2 (Or.inr (by rw [hst]; exact hjtake)))

theorem applyRun_inv (pfx : String) (endIdx start0 : Nat) (p : Progress)
    (t : RunTrace) (hv : validTrace pfx endIdx p t) (A : List Nat)
    (hinv : LedgerInv pfx start0 p A) :
    LedgerInv pfx start0 (applyRun pfx p t.finished) (A ++ t.started) := by
  obtain ⟨⟨k, hk⟩, hfin⟩ := hv
  refine foldl_applyFinished_inv pfx endIdx start0 p t.started k hk A t.finished p
    hfin le_rfl (fun s hs => hs) ?_
  intro i h1 h2
  rcases hinv i h1 h2 with h | h
  · exact Or.inl h
  · exact Or.inr (List.mem_append.2 (Or.inl h))

theorem execTraces_inv (pfx : String) (endIdx start0 : Nat) :
    ∀ (ts : List RunTrace) (p : Progress) (A : List Nat),
      validTraces pfx endIdx p ts → LedgerInv pfx start0 p A →
      LedgerInv pfx start0 (execTraces pfx p ts) (A ++ attempted ts) := by
  intro ts
  induction ts with
  | nil => intro p A _ h; simpa [execTraces, attempted] using h
  | cons t ts ih =>
    intro p A hv hinv
    obtain ⟨hv1, hv2⟩ := hv
    have h1 := applyRun_inv pfx endIdx start0 p t hv1 A hinv
    have h2 := ih (applyRun pfx p t.finished) (A ++ t.started) hv2 h1
    simp only [execTraces, attempted]
    rw [← List.append_assoc]
    exact h2

theorem completed_never_reattempted (pfx : String) (endIdx : Nat) :
    ∀ (ts : List RunTrace) (p : Progress), validTraces pfx endIdx p ts →
      ∀ i, safeId pfx i ∈ p.completed → i ∉ attempted ts := by
  intro ts
  induction ts with
  | nil => intro p _ i _; simp [attempted]
  | cons t ts ih =>
    intro p hv i h
    obtain ⟨hv1, hv2⟩ := hv
    simp only [attempted, List.mem_append, not_or]
    constructor
    · intro hst
      obtain ⟨⟨k, hk⟩, _⟩ := hv1
      rw [hk] at hst
      exact (mem_workList_facts pfx p endIdx i (List.mem_of_mem_take hst)).2.2 h
    · exact ih (applyRun pfx p t.finished) hv2 i (applyRun_completed_sub pfx t.finished p _ h)

/-- C3 (amended): across any sequence of interrupted runs and restarts, the
ledger's completed-set only grows (the post-restart completed-set is a
superset of the pre-interrupt one), and an identifier already in the
completed-set is never attempted again; however the code never removes an
identifier from the failed-set, so a failed identifier that later completes
stays in both sets (see the counterexample). -/
theorem c3_ledger_completed_monotone_never_reattempted (pfx : String)
    (endIdx : Nat) (p : Progress) (ts : List RunTrace)
    (hv : validTraces pfx endIdx p ts) :
    (∀ s ∈ p.completed, s ∈ (execTraces pfx p ts).completed)
    ∧ ∀ i, safeId pfx i ∈ p.completed → i ∉ attempted ts :=
  ⟨fun s hs => execTraces_completed_sub pfx ts p s hs,
   fun i h => completed_never_reattempted pfx endIdx ts p hv i h⟩

/-- Witness for C3: an already-completed identifier survives a further run
and is not attempted by it. -/
theorem c3_ledger_completed_monotone_never_reattempted_witness :
    ("2412-00001" ∈
      (execTraces "2412" ⟨1, ["2412-00001"], []⟩ [⟨[2], [(2, true)]⟩]).completed)
    ∧ 1 ∉ attempted [⟨[2], [(2, true)]⟩] := by
  have h := c3_ledger_completed_monotone_never_reattempted "2412" 2
    ⟨1, ["2412-00001"], []⟩ [⟨[2], [(2, true)]⟩]
    ⟨⟨⟨1, by decide⟩, by decide⟩, trivial⟩
  exact ⟨h.1 "2412-00001" (by decide), h.2 1 (by decide)⟩

/-- C3 counterexample: the claim as stated, that the failed-set never
contains an identifier that is in the completed-set, is false: an identifier
that fails in an interrupted run and succeeds on the retry after restart
ends in both sets, because a successful retry appends to completed_papers
but never removes from failed_papers. -/
theorem c3_failed_and_completed_overlap_counterexample :
    validTraces "2412" 1 ⟨1, [], []⟩ [⟨[1], [(1, false)]⟩, ⟨[1], [(1, true)]⟩]
    ∧ "2412-00001" ∈
        (execTraces "2412" ⟨1, [], []⟩ [⟨[1], [(1, false)]⟩, ⟨[1], [(1, true)]⟩]).completed
    ∧ "2412-00001" ∈
        (execTraces "2412" ⟨1, [], []⟩ [⟨[1], [(1, false)]⟩, ⟨[1], [(1, true)]⟩]).failed := by
  refine ⟨⟨⟨⟨1, by decide⟩, by decide⟩, ⟨⟨1, by decide⟩, by decide⟩, trivial⟩, by decide, by decide⟩

/-- C4 (amended): for every crash/restart sequence from a fresh ledger, the
final cursor never moves below the range start; every offset of the range
below the cursor is either completed or was at least attempted (so no
identifier that was neither completed nor attempted is ever skipped, thanks
to first-in first-out dispatch plus max-so-far cursor updates); and every
not-yet-completed offset from the cursor to the range end is on the resumed
work list.  The resumed work list may however re-process previously failed
items, which are not in-flight (see the counterexample). -/
theorem c4_resume_never_skips_unattempted (pfx : String) (endIdx start0 : Nat)
    (ts : List RunTrace)
    (hv : validTraces pfx endIdx ⟨start0, [], []⟩ ts) :
    (∀ i, start0 ≤ i → i < (execTraces pfx ⟨start0, [], []⟩ ts).current →
      safeId pfx i ∈ (execTraces pfx ⟨start0, [], []⟩ ts).completed ∨ i ∈ attempted ts)
    ∧ (∀ i, (execTraces pfx ⟨start0, [], []⟩ ts).current ≤ i → i ≤ endIdx →
        safeId pfx i ∉ (execTraces pfx ⟨start0, [], []⟩ ts).completed →
        i ∈ workList pfx (execTraces pfx ⟨start0, [], []⟩ ts) endIdx)
    ∧ start0 ≤ (execTraces pfx ⟨start0, [], []⟩ ts).current := by
  have h0 : LedgerInv pfx start0 ⟨start0, [], []⟩ [] := by
    intro i h1 h2
    have he : (⟨start0, [], []⟩ : Progress).current = start0 := rfl
    rw [he] at h2
    exact absurd h1 (by omega)
  have h1 := execTraces_inv pfx endIdx start0 ts ⟨start0, [], []⟩ [] hv h0
  refine ⟨?_, ?_, ?_⟩
  · intro i ha hb
    simpa using h1 i ha hb
  · intro i ha hb hc
    exact mem_workList_intro pfx _ endIdx i ha hb hc
  · exact execTraces_current_le pfx ts ⟨start0, [], []⟩

/-- Witness for C4: two items dispatched, the later one completes first and
pulls the cursor past the still in-flight first one; the invariant records
that offset 1 below the cursor was attempted. -/
theorem c4_resume_never_skips_unattempted_witness :
    (safeId "2412" 1 ∈ (execTraces "2412" ⟨1, [], []⟩ [⟨[1, 2], [(2, true)]⟩]).completed
      ∨ 1 ∈ attempted [⟨[1, 2], [(2, true)]⟩])
    ∧ 1 ≤ (execTraces "2412" ⟨1, [], []⟩ [⟨[1, 2], [(2, true)]⟩]).current := by
  have h := c4_resume_never_skips_unattempted "2412" 2 1 [⟨[1, 2], [(2, true)]⟩]
    ⟨⟨⟨2, by decide⟩, by decide⟩, trivial⟩
  exact ⟨h.1 1 (by decide) (by decide), h.2.2⟩

/-- C4 counterexample: the claim's bound that resumption re-processes at
most the in-flight items is false: a run whose only item finished with a
failure leaves nothing in flight, yet the resumed work list re-processes
that failed item. -/
theorem c4_resume_reprocesses_failed_counterexample :
    validTrace "2412" 1 ⟨1, [], []⟩ ⟨[1], [(1, false)]⟩
    ∧ inFlight ⟨[1], [(1, false)]⟩ = []
    ∧ workList "2412" (applyRun "2412" ⟨1, [], []⟩ [(1, false)]) 1 = [1]
    ∧ 1 ∈ RunTrace.started ⟨[1], [(1, false)]⟩ := by
  refine ⟨⟨⟨1, by decide⟩, by decide⟩, by decide, by decide, by decide⟩

/-- Observable action of a worker thread, for the lock-discipline model. -/
inductive Ev where
  | lockAcquire (l : String)
  | lockRelease (l : String)
  | reqBegin (api : String)
  | reqEnd (api : String)
  | pause
deriving DecidableEq, Repr

/-- Events of one call to get_semantic_scholar_data that issues n requests
(metadata_collector.py lines 38-51): a pacing sleep before every retry, then
the request; the function never touches any lock. -/
def get_semantic_scholar_events : Nat → List Ev
  | 0 => []
  | n + 1 =>
    get_semantic_scholar_events n ++
      (if n = 0 then [] else [Ev.pause]) ++
      [Ev.reqBegin "semantic_scholar", Ev.reqEnd "semantic_scholar"]

/-- Events of one download_and_extract_tex_bib call: the archive fetch
(downloader.py line 41), made without any lock. -/
def download_and_extract_events : List Ev :=
  [Ev.reqBegin "arxiv_eprint", Ev.reqEnd "arxiv_eprint"]

/-- Events of the per-version loop of download_paper (downloader.py lines
191-204): each version fetch followed by the pacing sleep, no lock. -/
def version_loop_events : Nat → List Ev
  | 0 => []
  | n + 1 => download_and_extract_events ++ (Ev.pause :: version_loop_events n)

/-- Events of one download_paper call for nv versions whose reference fetch
issues ssReqs requests (downloader.py lines 172-218): the arXiv metadata
scrape plus its pacing sleep run under arxiv_download_lock (lines 175-177);
the version fetches and the whole Semantic Scholar exchange run unlocked. -/
def download_paper_events (nv ssReqs : Nat) : List Ev :=
  [Ev.lockAcquire "arxiv_download_lock", Ev.reqBegin "arxiv_abs",
   Ev.reqEnd "arxiv_abs", Ev.pause, Ev.lockRelease "arxiv_download_lock"]
  ++ version_loop_events nv ++ get_semantic_scholar_events ssReqs

/-- Lock set after one event. -/
def heldAfter (held : List String) : Ev → List String
  | .lockAcquire l => l :: held
  | .lockRelease l => held.erase l
  | _ => held

/-- Each event of a trace paired with the lock set held when it runs. -/
def annotate (held : List String) : List Ev → List (Ev × List String)
  | [] => []
  | e :: rest => (e, held) :: annotate (heldAfter held e) rest

/-- A trace with no lock operation at all. -/
def lockFree (l : List Ev) : Bool :=
  l.all (fun e =>
    match e with
    | .lockAcquire _ => false
    | .lockRelease _ => false
    | _ => true)

theorem annotate_lockFree_append (held : List String) (m : List Ev) :
    ∀ l : List Ev, lockFree l = true →
      annotate held (l ++ m) = l.map (fun e => (e, held)) ++ annotate held m := by
  intro l
  induction l with
  | nil => intro _; simp
  | cons e l ih =>
    intro h
    simp only [lockFree, List.all_cons, Bool.and_eq_true] at h
    have he : heldAfter held e = held := by
      cases e <;> simp_all [heldAfter]
    rw [List.cons_append, annotate, he, ih (by simp only [lockFree]; exact h.2)]
    simp

theorem lockFree_append (l m : List Ev) :
    lockFree (l ++ m) = (lockFree l && lockFree m) := by
  simp [lockFree, List.all_append]

theorem lockFree_ss_events : ∀ n, lockFree (get_semantic_scholar_events n) = true := by
  intro n
  induction n with
  | zero => rfl
  | succ k ih =>
    rw [get_semantic_scholar_events, lockFree_append, lockFree_append, ih]
    cases k <;> rfl

theorem lockFree_version_loop : ∀ n, lockFree (version_loop_events n) = true := by
  intro n
  induction n with
  | zero => rfl
  | succ k ih =>
    rw [version_loop_events, lockFree_append]
    simp only [lockFree, List.all_cons] at ih ⊢
    simp [ih, download_and_extract_events]

/-- C9 (amended): the single shared lock arxiv_download_lock guards only the
arXiv metadata scrape: that request and its pacing sleep run with the lock
held, while every Semantic Scholar request in a worker trace runs with no
lock held at all, so the secondary-API calls of concurrent workers are not
serialized (see the counterexample for an overlapping schedule). -/
theorem c9_lock_guards_arxiv_not_semantic_scholar (nv ssReqs : Nat) :
    ((Ev.reqBegin "arxiv_abs", ["arxiv_download_lock"]) ∈
      annotate [] (download_paper_events nv ssReqs))
    ∧ ((Ev.pause, ["arxiv_download_lock"]) ∈
        annotate [] (download_paper_events nv ssReqs))
    ∧ ∀ held, (Ev.reqBegin "semantic_scholar", held) ∈
        annotate [] (download_paper_events nv ssReqs) → held = [] := by
  have hlf : lockFree (version_loop_events nv ++ get_semantic_scholar_events ssReqs) = true := by
    rw [lockFree_append, lockFree_version_loop, lockFree_ss_events]
    rfl
  have hld : annotate [] (version_loop_events nv ++ get_semantic_scholar_events ssReqs)
      = (version_loop_events nv ++ get_semantic_scholar_events ssReqs).map
          (fun e => (e, ([] : List String))) := by
    have h := annotate_lockFree_append ([] : List String) []
      (version_loop_events nv ++ get_semantic_scholar_events ssReqs) hlf
    simpa [annotate] using h
  have hstep : annotate [] (download_paper_events nv ssReqs) =
      (Ev.lockAcquire "arxiv_download_lock", ([] : List String)) ::
      (Ev.reqBegin "arxiv_abs", ["arxiv_download_lock"]) ::
      (Ev.reqEnd "arxiv_abs", ["arxiv_download_lock"]) ::
      (Ev.pause, ["arxiv_download_lock"]) ::
      (Ev.lockRelease "arxiv_download_lock", ["arxiv_download_lock"]) ::
      (version_loop_events nv ++ get_semantic_scholar_events ssReqs).map
        (fun e => (e, ([] : List String))) := by
    rw [download_paper_events]
    simp only [List.cons_append, List.nil_append, List.append_eq, annotate, heldAfter]
    rw [List.erase_cons_head]
    rw [hld]
  refine ⟨?_, ?_, ?_⟩
  · rw [hstep]; simp
  · rw [hstep]; simp
  · intro held hmem
    rw [hstep] at hmem
    simp only [List.mem_cons, List.mem_map, Prod.mk.injEq] at hmem
    rcases hmem with h | h | h | h | h | ⟨e, he, h1, h2⟩
    · exact absurd h.1 (by simp)
    · exact absurd h.1 (by simp)
    · exact absurd h.1 (by simp)
    · exact absurd h.1 (by simp)
    · exact absurd h.1 (by simp)
    · exact h2.symm

/-- Projection of a two-worker schedule onto worker w. -/
def projW (w : Bool) (s : List (Bool × Ev)) : List Ev :=
  (s.filter (fun x => x.1 == w)).map (fun x => x.2)

/-- Lock-discipline check of a schedule: a lock can be acquired only while
free and released only by its holder; `held` lists (lock, owner) pairs. -/
def schedOk : List (String × Bool) → List (Bool × Ev) → Bool
  | _, [] => true
  | held, (w, Ev.lockAcquire l) :: rest =>
    !(held.any (fun h => h.1 == l)) && schedOk ((l, w) :: held) rest
  | held, (w, Ev.lockRelease l) :: rest =>
    held.contains (l, w) && schedOk (held.erase (l, w)) rest
  | held, _ :: rest => schedOk held rest

/-- Does a schedule ever have both workers inside a Semantic Scholar request
at the same moment?  The two flags track whether worker false, respectively
worker true, is currently inside one. -/
def ssOverlapAux : Bool → Bool → List (Bool × Ev) → Bool
  | _, _, [] => false
  | inF, inT, (w, Ev.reqBegin a) :: rest =>
    if a == "semantic_scholar" then
      (if w then inF else inT) ||
        ssOverlapAux (if w then inF else true) (if w then true else inT) rest
    else ssOverlapAux inF inT rest
  | inF, inT, (w, Ev.reqEnd a) :: rest =>
    if a == "semantic_scholar" then
      ssOverlapAux (if w then inF else false) (if w then false else inT) rest
    else ssOverlapAux inF inT rest
  | inF, inT, _ :: rest => ssOverlapAux inF inT rest

/-- Overlap check from the idle state. -/
def ssOverlap (s : List (Bool × Ev)) : Bool :=
  ssOverlapAux false false s

/-- A concrete two-worker schedule: worker false runs one download_paper
trace up to and including its Semantic Scholar request begin, then worker
true runs its whole trace up to the same point, then both requests end. -/
def overlapSched : List (Bool × Ev) :=
  ((download_paper_events 1 1).take 9).map (fun e => (false, e))
  ++ ((download_paper_events 1 1).take 9).map (fun e => (true, e))
  ++ [(false, Ev.reqEnd "semantic_scholar"), (true, Ev.reqEnd "semantic_scholar")]

/-- C9 counterexample: the claim that all Semantic Scholar calls are
serialized through one shared mutual-exclusion gate is false: overlapSched
is a schedule of two workers each executing the download_paper event trace,
it respects the lock discipline of the one lock the source has
(arxiv_download_lock), and yet the two Semantic Scholar requests overlap in
time. -/
theorem c9_unserialized_semantic_scholar_counterexample :
    projW false overlapSched = download_paper_events 1 1
    ∧ projW true overlapSched = download_paper_events 1 1
    ∧ schedOk [] overlapSched = true
    ∧ ssOverlap overlapSched = true := by
  refine ⟨by decide, by decide, by decide, by decide⟩
